import Mathlib

/-!
Verification of the OptionsVolSurface analytics pipeline
(`vol-surface/python_code/GetChainValues.py` and
`vol-surface/python_code/options.py`) against its specification.

Modelling conventions.

* Python floats are modelled by real numbers `ℝ` in the numeric core
  (Black-Scholes pricing, the bisection implied-volatility solver,
  Greek attachment) and by rationals `ℚ` in the list-processing layer
  (quote sanitation, outlier rejection, surface grid), where only
  ordering and field arithmetic occur.  `None`, `NaN` and `±inf` are
  all mapped to `Option.none`: `clean` and `safe_float` in the source
  collapse exactly these to `None`, so a present field is always a
  finite number.  In this model `safe_float` is the identity.
* A Python value used as a condition ("truthiness") is `False` for
  `None` and `0.0`, which the embedding spells out at each use site.
* A raised-and-caught Python exception is `Option.none` at the point
  where the source catches it; an exception that the source does NOT
  catch is modelled by `Except.error ()` so that propagation out of a
  function is observable (`add_greeks`, `solve_iv`).
* `math.log` raises for a non-positive argument, `math.sqrt` for a
  negative one, division by `0.0` raises: each fallible numeric
  routine is wrapped in an `Option`-returning definition whose `none`
  branch is exactly the source's exception set.
-/

open MeasureTheory Set

/-- Standard normal density, the model of `scipy.stats.norm.pdf`. -/
noncomputable def normPdf (x : ℝ) : ℝ :=
  (Real.sqrt (2 * Real.pi))⁻¹ * Real.exp (-(x ^ 2) / 2)

/-- Standard normal cumulative distribution, the model of
`scipy.stats.norm.cdf`. -/
noncomputable def normCdf (x : ℝ) : ℝ :=
  ∫ t in Iic x, normPdf t

/-! ## The quote-sanitation layer (`GetChainValues.py`, rational model) -/

/-- One option quote after `row`/`clean`: every field either absent
(`none`, covering Python `None`, `NaN`, `±inf`) or a finite number. -/
structure Quote where
  strike : Option ℚ
  bid : Option ℚ
  ask : Option ℚ
  lastPrice : Option ℚ
  impliedVolatility : Option ℚ
  volume : Option ℚ
  openInterest : Option ℚ
  inTheMoney : Option Bool
deriving DecidableEq, Repr

/-- Python `x and x > 0` for an optional float `x`: `None` and `0.0`
are falsy, otherwise the comparison decides. -/
def optPos (x : Option ℚ) : Bool :=
  match x with
  | some v => decide (0 < v)
  | none => false

/-- `is_bad_quote` from `GetChainValues.py`: drop the quote when the
implied-vol estimate is missing/nonpositive/above 5.0, or when none of
bid, ask, lastPrice is a positive number. -/
def is_bad_quote (o : Quote) : Bool :=
  match o.impliedVolatility with
  | none => true
  | some iv =>
    if iv ≤ 0 ∨ 5 < iv then true
    else if optPos o.bid || optPos o.ask || optPos o.lastPrice then false
    else true

/-- The sanitation step of `main`:
`[o for o in rows if not is_bad_quote(o)]`. -/
def sanitize (l : List Quote) : List Quote :=
  l.filter (fun o => !is_bad_quote o)

/-- Predicate written from the specification sentence for claim C7:
reject iff the implied-volatility estimate is missing, `≤ 0`, or
`> 5.0`, or none of bid, ask, lastPrice is a positive finite number
(in this model a present field is finite by construction). -/
def specBadQuote (o : Quote) : Prop :=
  (o.impliedVolatility = none ∨
    ∃ v, o.impliedVolatility = some v ∧ (v ≤ 0 ∨ 5 < v)) ∨
  ¬ ∃ p, (p = o.bid ∨ p = o.ask ∨ p = o.lastPrice) ∧ ∃ v, p = some v ∧ 0 < v

/-- Comparator handed to the sorting routine: Python `sorted` on
floats. -/
def qLe (a b : ℚ) : Bool := decide (a ≤ b)

/-- `reject_outliers` from `GetChainValues.py`: index-based quartiles
over the sorted valid implied vols, and a `3×IQR` keep-band; a no-op
below 8 valid values. -/
def reject_outliers (l : List Quote) : List Quote :=
  let ivs := l.map (fun o => o.impliedVolatility)
  let ivs_clean := (ivs.filterMap id).mergeSort qLe
  if ivs_clean.length < 8 then l
  else
    let q1 := ivs_clean.getD (ivs_clean.length / 4) 0
    let q3 := ivs_clean.getD (3 * ivs_clean.length / 4) 0
    let iqr := q3 - q1
    let lo := q1 - 3 * iqr
    let hi := q3 + 3 * iqr
    ((l.zip ivs).filter (fun p =>
      match p.2 with
      | some iv => decide (lo ≤ iv ∧ iv ≤ hi)
      | none => false)).map Prod.fst

/-- Sorted list of the valid implied vols of a quote list, as the
specification describes it ("the sorted valid implied vols"). -/
def sortedIvs (l : List Quote) : List ℚ :=
  (l.filterMap (fun o => o.impliedVolatility)).mergeSort qLe

/-- First index-quartile of the spec: `sorted[len/4]`. -/
def specQ1 (l : List Quote) : ℚ :=
  (sortedIvs l).getD ((sortedIvs l).length / 4) 0

/-- Third index-quartile of the spec: `sorted[3*len/4]`. -/
def specQ3 (l : List Quote) : ℚ :=
  (sortedIvs l).getD (3 * (sortedIvs l).length / 4) 0

/-- The outlier step as the specification sentence for claim C8 states
it: identity below 8 valid implied vols, otherwise keep exactly the
quotes whose implied vol lies in `[Q1 - 3·IQR, Q3 + 3·IQR]`, in order. -/
def specOutlierFilter (l : List Quote) : List Quote :=
  if (sortedIvs l).length < 8 then l
  else
    l.filter (fun o =>
      match o.impliedVolatility with
      | some iv => decide (specQ1 l - 3 * (specQ3 l - specQ1 l) ≤ iv ∧
          iv ≤ specQ3 l + 3 * (specQ3 l - specQ1 l))
      | none => false)

/-! ## The Black-Scholes solver core (`GetChainValues.py`, real model) -/

/-- `d1` of `bs_call`/`bs_put` in `GetChainValues.py` (with the `r`
term, unlike `options.py`). -/
noncomputable def d1v (S K T r σ : ℝ) : ℝ :=
  (Real.log (S / K) + (r + 0.5 * σ ^ 2) * T) / (σ * Real.sqrt T)

/-- `d2 = d1 - σ·√T`. -/
noncomputable def d2v (S K T r σ : ℝ) : ℝ :=
  d1v S K T r σ - σ * Real.sqrt T

/-- Value of `bs_call` when no exception occurs. -/
noncomputable def bsCallVal (S K T r σ : ℝ) : ℝ :=
  S * normCdf (d1v S K T r σ) - K * Real.exp (-r * T) * normCdf (d2v S K T r σ)

/-- Value of `bs_put` when no exception occurs. -/
noncomputable def bsPutVal (S K T r σ : ℝ) : ℝ :=
  K * Real.exp (-r * T) * normCdf (-d2v S K T r σ) - S * normCdf (-d1v S K T r σ)

/-- `bs_call` from `GetChainValues.py`.  The `none` branch is the
exception set of the Python body: `math.log(S/K)` raises iff
`S/K ≤ 0` (including `K = 0`, where the quotient itself raises),
`math.sqrt(T)` raises for `T < 0`, and the division raises when
`σ·√T = 0`; in this model `σ·√T = 0` covers `T < 0` as well since
`Real.sqrt` vanishes there. -/
noncomputable def bs_call (S K T r σ : ℝ) : Option ℝ :=
  if S / K ≤ 0 ∨ σ * Real.sqrt T = 0 then none
  else some (bsCallVal S K T r σ)

/-- `bs_put` from `GetChainValues.py`, same exception set. -/
noncomputable def bs_put (S K T r σ : ℝ) : Option ℝ :=
  if S / K ≤ 0 ∨ σ * Real.sqrt T = 0 then none
  else some (bsPutVal S K T r σ)

/-- The 120-iteration bisection loop of `solve_iv`, by remaining fuel.
A pricing exception (`fn mid = none`) aborts with `none` (the
`except: return None` inside the loop); a midpoint pricing within
`1e-6` of the target returns immediately; after the loop the midpoint
is returned only inside the band `(0.001, 9.9)`. -/
noncomputable def solveLoop (fn : ℝ → Option ℝ) (m : ℝ) : ℕ → ℝ → ℝ → Option ℝ
  | 0, lo, hi =>
    let iv := (lo + hi) / 2
    if 0.001 < iv ∧ iv < 9.9 then some iv else none
  | n + 1, lo, hi =>
    let mid := (lo + hi) / 2
    match fn mid with
    | none => none
    | some p =>
      if |p - m| < 1e-6 then some mid
      else if p < m then solveLoop fn m n mid hi
      else solveLoop fn m n lo mid

/-- `solve_iv` from `GetChainValues.py`.  `market = none` or
`market ≤ 0` (Python `not market_price or market_price <= 0`) and
`T ≤ 0` return `None`.  The intrinsic-value line is transcribed
exactly as written in the source, `(S-K) if not is_call else (K-S)`,
i.e. a call uses `K - S` and a put uses `S - K`.  A missing strike
reaches that line and raises an uncaught `TypeError`
(`float - None`), modelled by `Except.error ()`. -/
noncomputable def solve_iv (market : Option ℝ) (S : ℝ) (K : Option ℝ)
    (T r : ℝ) (isCall : Bool) : Except Unit (Option ℝ) :=
  match market with
  | none => .ok none
  | some m =>
    if T ≤ 0 ∨ m ≤ 0 then .ok none
    else
      match K with
      | none => .error ()
      | some k =>
        let intrinsic := max 0 (if isCall then k - S else S - k)
        if m ≤ intrinsic + 1e-5 then .ok none
        else .ok (solveLoop
          (fun σ => if isCall then bs_call S k T r σ else bs_put S k T r σ)
          m 120 1e-5 10)

/-! ## The Analytics Engine (`options.py`, real model) -/

/-- The `x1` computed by every method of `BlackScholesCall` and by the
gamma/delta/vega/theta methods of `BlackScholesPut`: note the missing
`r·T` term in the numerator, unlike `bs_call`/`bs_put` of
`GetChainValues.py`. -/
noncomputable def x1v (S σ K T : ℝ) : ℝ :=
  (Real.log (S / K) + 0.5 * (σ * σ) * T) / (σ * Real.sqrt T)

/-- `BlackScholesCall.callPrice` (arguments in source order:
asset price, volatility, strike, time, rate). -/
noncomputable def callPrice (S σ K T r : ℝ) : ℝ :=
  let b := Real.exp (-r * T)
  let z1 := normCdf (x1v S σ K T) * S
  let x2 := (Real.log (S / K) - 0.5 * (σ * σ) * T) / (σ * Real.sqrt T)
  let z2 := b * K * normCdf x2
  z1 - z2

/-- `BlackScholesCall.callDelta` = `BlackScholesPut.putDelta + 1`. -/
noncomputable def callDelta (S σ K T r : ℝ) : ℝ :=
  normCdf (x1v S σ K T)

/-- `BlackScholesCall.callGamma` (and, verbatim, `putGamma`): the
flagged quirk — `norm.cdf`, not `norm.pdf`, of `x1`. -/
noncomputable def callGamma (S σ K T r : ℝ) : ℝ :=
  normCdf (x1v S σ K T) / (S * σ * Real.sqrt T)

/-- `BlackScholesPut.putGamma`, textually the same body as
`callGamma`. -/
noncomputable def putGamma (S σ K T r : ℝ) : ℝ :=
  normCdf (x1v S σ K T) / (S * σ * Real.sqrt T)

/-- `BlackScholesCall.callVega` (and `putVega`). -/
noncomputable def callVega (S σ K T r : ℝ) : ℝ :=
  S * normPdf (x1v S σ K T) * Real.sqrt T

/-- `BlackScholesCall.callTheta`. -/
noncomputable def callTheta (S σ K T r : ℝ) : ℝ :=
  (-(S * σ * normPdf (x1v S σ K T)) / (2 * Real.sqrt T)
    - r * K * Real.exp (-r * T) * normCdf (x1v S σ K T - σ * Real.sqrt T)) / 365

/-- `BlackScholesPut.putPrice` — this one DOES carry the `r` term in
its `d1`, unlike `callPrice`. -/
noncomputable def putPrice (S σ K T r : ℝ) : ℝ :=
  let b := Real.exp (-r * T)
  let d1 := (Real.log (S / K) + (r + 0.5 * σ ^ 2) * T) / (σ * Real.sqrt T)
  let d2 := d1 - σ * Real.sqrt T
  b * K * normCdf (-d2) - S * normCdf (-d1)

/-- `BlackScholesPut.putDelta`. -/
noncomputable def putDelta (S σ K T r : ℝ) : ℝ :=
  normCdf (x1v S σ K T) - 1

/-- `BlackScholesPut.putVega`, textually the same body as `callVega`. -/
noncomputable def putVega (S σ K T r : ℝ) : ℝ :=
  S * normPdf (x1v S σ K T) * Real.sqrt T

/-- `BlackScholesPut.putTheta`. -/
noncomputable def putTheta (S σ K T r : ℝ) : ℝ :=
  (-(S * σ * normPdf (x1v S σ K T)) / (2 * Real.sqrt T)
    - r * K * Real.exp (-r * T) * normCdf (-(x1v S σ K T - σ * Real.sqrt T))) / 365

/-- Call price formula as the specification states it for claim C2
(`d1` WITH the `r·T` term), in the argument order of `options.py`. -/
noncomputable def specCallPrice (S σ K T r : ℝ) : ℝ :=
  let d1 := (Real.log (S / K) + (r + 0.5 * σ ^ 2) * T) / (σ * Real.sqrt T)
  let d2 := d1 - σ * Real.sqrt T
  S * normCdf d1 - K * Real.exp (-r * T) * normCdf d2

/-- Put price formula as the specification states it for claim C2. -/
noncomputable def specPutPrice (S σ K T r : ℝ) : ℝ :=
  let d1 := (Real.log (S / K) + (r + 0.5 * σ ^ 2) * T) / (σ * Real.sqrt T)
  let d2 := d1 - σ * Real.sqrt T
  K * Real.exp (-r * T) * normCdf (-d2) - S * normCdf (-d1)

/-- Gamma as claim C5 states it: `Φ(d1) / (S·σ·√T)` with the CDF quirk
AND the `r` term inside `d1`. -/
noncomputable def specGamma (S σ K T r : ℝ) : ℝ :=
  normCdf ((Real.log (S / K) + (r + 0.5 * σ ^ 2) * T) / (σ * Real.sqrt T))
    / (S * σ * Real.sqrt T)

/-- Gamma as the code actually computes it (amended claim C5): the CDF
quirk applied to the `r`-free `x1`. -/
noncomputable def specGammaNoR (S σ K T r : ℝ) : ℝ :=
  normCdf ((Real.log (S / K) + 0.5 * (σ * σ) * T) / (σ * Real.sqrt T))
    / (S * σ * Real.sqrt T)

/-! ## Greek attachment (`add_greeks`, real model) -/

/-- A quote record as `add_greeks` sees and mutates it. -/
structure GQuote where
  strike : Option ℝ
  bid : Option ℝ
  ask : Option ℝ
  lastPrice : Option ℝ
  impliedVolatility : Option ℝ
  BSprice : Option ℝ
  delta : Option ℝ
  gamma : Option ℝ
  vega : Option ℝ
  theta : Option ℝ

/-- The five computed outputs of a `BlackScholes*` object. -/
structure BSOut where
  price : ℝ
  delta : ℝ
  gamma : ℝ
  vega : ℝ
  theta : ℝ

/-- The eager `BlackScholesCall` constructor: computes all five
outputs, raising (i.e. `none`, caught by `add_greeks`) exactly when
`math.log(S/K)` has a non-positive argument or a denominator `σ·√T`
(or `S·σ·√T`, subsumed since `S ≤ 0` already fails the logarithm)
vanishes. -/
noncomputable def mkBlackScholesCall (S σ K T r : ℝ) : Option BSOut :=
  if S / K ≤ 0 ∨ σ * Real.sqrt T = 0 then none
  else some ⟨callPrice S σ K T r, callDelta S σ K T r, callGamma S σ K T r,
    callVega S σ K T r, callTheta S σ K T r⟩

/-- The eager `BlackScholesPut` constructor, same exception set. -/
noncomputable def mkBlackScholesPut (S σ K T r : ℝ) : Option BSOut :=
  if S / K ≤ 0 ∨ σ * Real.sqrt T = 0 then none
  else some ⟨putPrice S σ K T r, putDelta S σ K T r, putGamma S σ K T r,
    putVega S σ K T r, putTheta S σ K T r⟩

/-- Python `not x or x <= 0` for an optional float: true for `None`,
`0.0` and negatives. -/
def badOpt (x : Option ℝ) : Prop :=
  match x with
  | some v => v ≤ 0
  | none => True

noncomputable instance instDecidableBadOpt (x : Option ℝ) : Decidable (badOpt x) :=
  match x with
  | some v => inferInstanceAs (Decidable (v ≤ 0))
  | none => .isTrue trivial

/-- Python truthiness of an optional float. -/
def truthyOpt (x : Option ℝ) : Prop :=
  match x with
  | some v => v ≠ 0
  | none => False

noncomputable instance instDecidableTruthyOpt (x : Option ℝ) : Decidable (truthyOpt x) :=
  match x with
  | some v => inferInstanceAs (Decidable (v ≠ 0))
  | none => .isFalse not_false

/-- `option.update({...: None})` over the five computed fields. -/
def setAbsent (q : GQuote) : GQuote :=
  { q with
    BSprice := none
    delta := none
    gamma := none
    vega := none
    theta := none }

/-- `mid = (bid + ask) / 2 if (bid and ask and bid > 0 and ask > 0)
else None`. -/
noncomputable def midPrice (bid ask : Option ℝ) : Option ℝ :=
  match bid, ask with
  | some b, some a => if 0 < b ∧ 0 < a then some ((b + a) / 2) else none
  | _, _ => none

/-- Lines of `add_greeks` after `iv` has been resolved: conditional
overwrite of `impliedVolatility`, guard clause, guarded constructor
call with its `try/except`.  `safe_float` around each output is the
identity here since the real model has no `NaN`. -/
noncomputable def attachGreeks (q : GQuote) (iv : Option ℝ) (isCall : Bool)
    (spot T r : ℝ) : GQuote :=
  let q1 := if truthyOpt iv then { q with impliedVolatility := iv } else q
  if badOpt iv ∨ badOpt q.strike ∨ T ≤ 0 then setAbsent q1
  else
    match iv, q.strike with
    | some v, some k =>
      match (if isCall then mkBlackScholesCall spot v k T r
             else mkBlackScholesPut spot v k T r) with
      | some bs =>
        { q1 with
          BSprice := some bs.price
          delta := some bs.delta
          gamma := some bs.gamma
          vega := some bs.vega
          theta := some bs.theta }
      | none => setAbsent q1
    | _, _ => setAbsent q1

/-- `add_greeks` from `GetChainValues.py`.  The implied-vol resolution
(`iv = solve_iv(mid, ...) if mid else iv_yh`) happens before any
guard, so an exception escaping `solve_iv` propagates out —
`Except.error ()`. -/
noncomputable def add_greeks (q : GQuote) (isCall : Bool) (spot T r : ℝ) :
    Except Unit GQuote :=
  match midPrice q.bid q.ask with
  | some m =>
    if m ≠ 0 then
      match solve_iv (some m) spot q.strike T r isCall with
      | .error e => .error e
      | .ok iv => .ok (attachGreeks q iv isCall spot T r)
    else .ok (attachGreeks q q.impliedVolatility isCall spot T r)
  | none => .ok (attachGreeks q q.impliedVolatility isCall spot T r)

/-! ## The Surface Builder (`main`, rational model)

The `< 4` gate, the two 50-point grids, the row-major assembly and the
`NaN → nearest` substitution are transcribed from `main`.  The two
scipy interpolants themselves are not repository code, so following
the specification: the piecewise-linear interpolant is an arbitrary
partial function (undefined outside the convex hull, surfaced as a
non-numeric result, `none` here), and the nearest-neighbor interpolant
returns the value of the closest observed point. -/

/-- A surface point `(strike/spot, days-to-expiry, iv·100)`. -/
abbrev SurfacePoint : Type := ℚ × ℚ × ℚ

/-- Output grid: moneyness axis, days-to-expiry axis, row-major values
indexed `[days-to-expiry][moneyness]`. -/
structure Surface where
  x : List ℚ
  y : List ℚ
  z : List (List ℚ)
deriving DecidableEq, Repr

/-- Minimum of a scatter coordinate list (`pts[:,i].min()`; the caller
guarantees nonemptiness). -/
def listMin (l : List ℚ) : ℚ :=
  match l with
  | [] => 0
  | h :: t => t.foldl min h

/-- Maximum of a scatter coordinate list. -/
def listMax (l : List ℚ) : ℚ :=
  match l with
  | [] => 0
  | h :: t => t.foldl max h

/-- `np.linspace(a, b, 50)`. -/
def linspace (a b : ℚ) : List ℚ :=
  (List.range 50).map (fun i : ℕ => a + (b - a) * (i : ℚ) / 49)

/-- Modelled from the spec: the nearest-neighbor interpolant
(`NearestNDInterpolator`, not repository code) — the value of the
observed point closest to the query, earliest point winning ties. -/
def nearestVal (pts : List SurfacePoint) (k t : ℚ) : ℚ :=
  match pts with
  | [] => 0
  | p :: rest =>
    (rest.foldl (fun best q =>
      if (q.1 - k) ^ 2 + (q.2.1 - t) ^ 2 < (best.1 - k) ^ 2 + (best.2.1 - t) ^ 2
      then q else best) p).2.2

/-- The surface-construction tail of `main`.  `lin` is the abstract
piecewise-linear interpolant (modelled from the spec: defined inside
the convex hull, `none` — a `NaN` cell — outside); every `NaN` cell is
replaced by the nearest-neighbor value, which is total. -/
def buildSurface (pts : List SurfacePoint) (lin : ℚ → ℚ → Option ℚ) :
    Option Surface :=
  if pts.length < 4 then none
  else
    let ks := pts.map (fun p => p.1)
    let ts := pts.map (fun p => p.2.1)
    let kg := linspace (listMin ks) (listMax ks)
    let tg := linspace (listMin ts) (listMax ts)
    some
      { x := kg
        y := tg
        z := tg.map (fun t =>
          kg.map (fun k => (lin k t).getD (nearestVal pts k t))) }

/-! ## Gaussian groundwork -/

theorem normPdf_pos (x : ℝ) : 0 < normPdf x := by
  unfold normPdf
  have h2 : (0:ℝ) < Real.sqrt (2 * Real.pi) :=
    Real.sqrt_pos.2 (by positivity)
  positivity

theorem continuous_normPdf : Continuous normPdf := by
  unfold normPdf
  fun_prop

theorem normPdf_exp_form (x : ℝ) :
    normPdf x = (Real.sqrt (2 * Real.pi))⁻¹ * Real.exp (-(1/2 : ℝ) * x ^ 2) := by
  unfold normPdf
  ring_nf

theorem integrable_normPdf : Integrable normPdf := by
  have h := (integrable_exp_neg_mul_sq (b := (1/2 : ℝ)) (by norm_num)).const_mul
    ((Real.sqrt (2 * Real.pi))⁻¹)
  apply h.congr
  filter_upwards with x
  rw [normPdf_exp_form]

theorem integral_normPdf : ∫ x, normPdf x = 1 := by
  have h : ∫ x, normPdf x =
      (Real.sqrt (2 * Real.pi))⁻¹ * ∫ x : ℝ, Real.exp (-(1/2 : ℝ) * x ^ 2) := by
    rw [← integral_mul_left]
    congr 1
    funext x
    rw [normPdf_exp_form]
  rw [h, integral_gaussian]
  have h2 : Real.pi / (1/2 : ℝ) = 2 * Real.pi := by ring
  rw [h2]
  exact inv_mul_cancel₀ (Real.sqrt_ne_zero'.2 (by positivity))

theorem normCdf_nonneg (x : ℝ) : 0 ≤ normCdf x :=
  setIntegral_nonneg measurableSet_Iic fun t _ => (normPdf_pos t).le

theorem normCdf_le_one (x : ℝ) : normCdf x ≤ 1 := by
  rw [← integral_normPdf]
  exact setIntegral_le_integral integrable_normPdf
    (Filter.Eventually.of_forall fun t => (normPdf_pos t).le)

theorem intervalIntegrable_normPdf (a b : ℝ) :
    IntervalIntegrable normPdf volume a b :=
  integrable_normPdf.intervalIntegrable

theorem normCdf_sub (a b : ℝ) :
    normCdf b - normCdf a = ∫ t in a..b, normPdf t :=
  intervalIntegral.integral_Iic_sub_Iic integrable_normPdf.integrableOn
    integrable_normPdf.integrableOn

theorem normCdf_mono {a b : ℝ} (h : a ≤ b) : normCdf a ≤ normCdf b := by
  unfold normCdf
  exact setIntegral_mono_set integrable_normPdf.integrableOn
    (Filter.Eventually.of_forall fun t => (normPdf_pos t).le)
    (HasSubset.Subset.eventuallyLE (Iic_subset_Iic.2 h))

theorem normCdf_sub_ge (a b c : ℝ) (hab : a ≤ b)
    (hc : ∀ t, a ≤ t → t ≤ b → c ≤ normPdf t) :
    c * (b - a) ≤ normCdf b - normCdf a := by
  rw [normCdf_sub]
  have h1 : (∫ _ in a..b, c) ≤ ∫ t in a..b, normPdf t :=
    intervalIntegral.integral_mono_on hab intervalIntegrable_const
      (intervalIntegrable_normPdf a b) fun t ht => hc t ht.1 ht.2
  simpa [intervalIntegral.integral_const, smul_eq_mul, mul_comm] using h1

theorem normCdf_sub_le (a b c : ℝ) (hab : a ≤ b)
    (hc : ∀ t, a ≤ t → t ≤ b → normPdf t ≤ c) :
    normCdf b - normCdf a ≤ c * (b - a) := by
  rw [normCdf_sub]
  have h1 : (∫ t in a..b, normPdf t) ≤ ∫ _ in a..b, c :=
    intervalIntegral.integral_mono_on hab (intervalIntegrable_normPdf a b)
      intervalIntegrable_const fun t ht => hc t ht.1 ht.2
  simpa [intervalIntegral.integral_const, smul_eq_mul, mul_comm] using h1

theorem normCdf_hasDerivAt (x : ℝ) : HasDerivAt normCdf (normPdf x) x := by
  have heq : ∀ u : ℝ, normCdf u = normCdf 0 + ∫ t in (0:ℝ)..u, normPdf t := by
    intro u
    rw [← normCdf_sub 0 u]
    ring
  have h : HasDerivAt (fun u => normCdf 0 + ∫ t in (0:ℝ)..u, normPdf t)
      (normPdf x) x :=
    ((continuous_normPdf.integral_hasStrictDerivAt 0 x).hasDerivAt).const_add
      (normCdf 0)
  exact h.congr_of_eventuallyEq (Filter.Eventually.of_forall heq)

/-! ## Numeric bounds on the density at the points the claims need -/

theorem sqrt_two_pi_lt : Real.sqrt (2 * Real.pi) < 2.51 := by
  rw [Real.sqrt_lt' (by norm_num)]
  nlinarith [Real.pi_lt_d2]

theorem sqrt_two_pi_gt : (2.5 : ℝ) < Real.sqrt (2 * Real.pi) := by
  rw [Real.lt_sqrt (by norm_num)]
  nlinarith [Real.pi_gt_d6]

theorem sqrt_two_pi_pos : (0:ℝ) < Real.sqrt (2 * Real.pi) := by
  linarith [sqrt_two_pi_gt]

theorem inv_sqrt_two_pi_gt : (0.398 : ℝ) < (Real.sqrt (2 * Real.pi))⁻¹ := by
  rw [lt_inv_comm₀ (by norm_num) sqrt_two_pi_pos]
  calc Real.sqrt (2 * Real.pi) < 2.51 := sqrt_two_pi_lt
    _ ≤ (0.398 : ℝ)⁻¹ := by norm_num

theorem inv_sqrt_two_pi_lt : (Real.sqrt (2 * Real.pi))⁻¹ < 0.4 := by
  rw [inv_lt_comm₀ sqrt_two_pi_pos (by norm_num)]
  calc (0.4 : ℝ)⁻¹ = 2.5 := by norm_num
    _ < Real.sqrt (2 * Real.pi) := sqrt_two_pi_gt

theorem normPdf_le_04 (t : ℝ) : normPdf t ≤ 0.4 := by
  unfold normPdf
  have h1 : Real.exp (-t ^ 2 / 2) ≤ 1 := by
    rw [Real.exp_le_one_iff]
    nlinarith [sq_nonneg t]
  nlinarith [inv_sqrt_two_pi_lt, inv_sqrt_two_pi_gt,
    Real.exp_pos (-t ^ 2 / 2)]

theorem exp_half_lt : Real.exp (1/2 : ℝ) < 1.65 := by
  have h : Real.exp (1/2 : ℝ) * Real.exp (1/2 : ℝ) = Real.exp 1 := by
    rw [← Real.exp_add]
    norm_num
  nlinarith [Real.exp_one_lt_d9, Real.exp_pos (1/2 : ℝ)]

theorem normPdf_ge_02 (t : ℝ) (h : t ^ 2 ≤ 1) : (0.2 : ℝ) ≤ normPdf t := by
  unfold normPdf
  have h1 : Real.exp (-(1/2) : ℝ) ≤ Real.exp (-t ^ 2 / 2) := by
    apply Real.exp_le_exp.2
    linarith
  have h2 : (1 : ℝ)/1.65 ≤ Real.exp (-(1/2) : ℝ) := by
    have hh : Real.exp (-(1/2) : ℝ) = (Real.exp (1/2 : ℝ))⁻¹ := Real.exp_neg _
    have hinv : (Real.exp (1/2 : ℝ))⁻¹ * Real.exp (1/2 : ℝ) = 1 :=
      inv_mul_cancel₀ (Real.exp_pos _).ne'
    rw [hh]
    nlinarith [exp_half_lt, Real.exp_pos (1/2 : ℝ),
      inv_pos.2 (Real.exp_pos (1/2 : ℝ))]
  have h3 : (0.398 : ℝ) * (1/1.65) ≤
      (Real.sqrt (2 * Real.pi))⁻¹ * Real.exp (-t ^ 2 / 2) := by
    apply mul_le_mul inv_sqrt_two_pi_gt.le (h2.trans h1) (by norm_num)
    positivity
  calc (0.2 : ℝ) ≤ 0.398 * (1/1.65) := by norm_num
    _ ≤ _ := h3

theorem normPdf_anti {s t : ℝ} (h0 : 0 ≤ s) (hst : s ≤ t) :
    normPdf t ≤ normPdf s := by
  unfold normPdf
  apply mul_le_mul_of_nonneg_left _ (by positivity)
  apply Real.exp_le_exp.2
  nlinarith

theorem exp_eight_gt : (2824 : ℝ) < Real.exp 8 := by
  have h : Real.exp (8:ℝ) = Real.exp 1 ^ 8 := by
    rw [← Real.exp_nat_mul]
    norm_num
  rw [h]
  calc (2824 : ℝ) < 2.7182818283 ^ 8 := by norm_num
    _ < Real.exp 1 ^ 8 := by
        gcongr
        exact Real.exp_one_gt_d9

theorem exp_neg_eight_lt : Real.exp (-8 : ℝ) < 1/2824 := by
  rw [Real.exp_neg, show (1/2824 : ℝ) = (2824 : ℝ)⁻¹ by norm_num]
  exact inv_strictAnti₀ (by norm_num) exp_eight_gt

theorem exp_four_half_lt : Real.exp (4.5 : ℝ) < 91 := by
  have h9 : Real.exp (4.5 : ℝ) * Real.exp (4.5 : ℝ) = Real.exp 9 := by
    rw [← Real.exp_add]
    norm_num
  have h9b : Real.exp (9:ℝ) = Real.exp 1 ^ 9 := by
    rw [← Real.exp_nat_mul]
    norm_num
  have h9c : Real.exp (9:ℝ) < 8281 := by
    rw [h9b]
    calc Real.exp 1 ^ 9 < 2.7182818286 ^ 9 := by
          gcongr
          exact Real.exp_one_lt_d9
      _ < 8281 := by norm_num

  nlinarith [Real.exp_pos (4.5 : ℝ)]

theorem exp_two_lt : Real.exp (2 : ℝ) < 7.39 := by
  have h : Real.exp (2:ℝ) = Real.exp 1 ^ 2 := by
    rw [← Real.exp_nat_mul]
    norm_num
  rw [h]
  calc Real.exp 1 ^ 2 < 2.7182818286 ^ 2 := by
        gcongr
        exact Real.exp_one_lt_d9
    _ < 7.39 := by norm_num

theorem normPdf_three_ge : (0.004 : ℝ) ≤ normPdf 3 := by
  unfold normPdf
  have he : Real.exp (-(3:ℝ) ^ 2 / 2) = (Real.exp (4.5 : ℝ))⁻¹ := by
    rw [← Real.exp_neg]
    norm_num
  rw [he]
  have h1 : (1/91 : ℝ) ≤ (Real.exp (4.5 : ℝ))⁻¹ := by
    rw [show (1/91 : ℝ) = (91 : ℝ)⁻¹ by norm_num]
    exact (inv_strictAnti₀ (Real.exp_pos _) exp_four_half_lt).le
  have h3 : (0.398 : ℝ) * (1/91) ≤
      (Real.sqrt (2 * Real.pi))⁻¹ * (Real.exp (4.5 : ℝ))⁻¹ := by
    apply mul_le_mul inv_sqrt_two_pi_gt.le h1 (by norm_num)
    positivity
  calc (0.004 : ℝ) ≤ 0.398 * (1/91) := by norm_num
    _ ≤ _ := h3

theorem normPdf_two_ge : (0.05 : ℝ) ≤ normPdf 2 := by
  unfold normPdf
  have he : Real.exp (-(2:ℝ) ^ 2 / 2) = (Real.exp (2 : ℝ))⁻¹ := by
    rw [← Real.exp_neg]
    norm_num
  rw [he]
  have h1 : (1/7.39 : ℝ) ≤ (Real.exp (2 : ℝ))⁻¹ := by
    rw [show (1/7.39 : ℝ) = (7.39 : ℝ)⁻¹ by norm_num]
    exact (inv_strictAnti₀ (Real.exp_pos _) exp_two_lt).le
  have h3 : (0.398 : ℝ) * (1/7.39) ≤
      (Real.sqrt (2 * Real.pi))⁻¹ * (Real.exp (2 : ℝ))⁻¹ := by
    apply mul_le_mul inv_sqrt_two_pi_gt.le h1 (by norm_num)
    positivity
  calc (0.05 : ℝ) ≤ 0.398 * (1/7.39) := by norm_num
    _ ≤ _ := h3

/-! ## Claim C2: the Analytics Engine price formulas -/

/-- C2: the claim states both prices use
`d1 = (ln(S/K) + (r + σ²/2)T)/(σ√T)`.  The put price does; the call
price does not — its `x1`/`x2` omit the `r·T` term, and at
`S=1, σ=4, K=1, T=1, r=8` the two formulas provably differ.  (Welcome
theorem for the `code_bug` verdict: the repository's own
`bs_call` in `GetChainValues.py` carries the `r·T` term, so the claim
formula is the intended one.) -/
theorem claim_C2_call_price_missing_r :
    (∀ S σ K T r : ℝ, putPrice S σ K T r = specPutPrice S σ K T r) ∧
    callPrice 1 4 1 1 8 ≠ specCallPrice 1 4 1 1 8 := by
  constructor
  · intro S σ K T r
    dsimp only [putPrice, specPutPrice]
    ring
  · have hcode : callPrice 1 4 1 1 8 =
        normCdf 2 - Real.exp (-8) * normCdf (-2) := by
      dsimp only [callPrice, x1v]
      rw [show (1:ℝ)/1 = 1 by norm_num, Real.log_one, Real.sqrt_one]
      norm_num
    have hspec : specCallPrice 1 4 1 1 8 =
        normCdf 4 - Real.exp (-8) * normCdf 0 := by
      dsimp only [specCallPrice]
      rw [show (1:ℝ)/1 = 1 by norm_num, Real.log_one, Real.sqrt_one]
      norm_num
    rw [hcode, hspec]
    have h1 : normPdf 3 * (3 - 2) ≤ normCdf 3 - normCdf 2 :=
      normCdf_sub_ge 2 3 (normPdf 3) (by norm_num)
        (fun t h1t h2t => normPdf_anti (by linarith) h2t)
    have h2 : normCdf 3 ≤ normCdf 4 := normCdf_mono (by norm_num)
    have h3 : normCdf 0 - normCdf (-2) ≤ 0.4 * (0 - (-2)) :=
      normCdf_sub_le (-2) 0 0.4 (by norm_num) (fun t _ _ => normPdf_le_04 t)
    have h4 : normCdf (-2) ≤ normCdf 0 := normCdf_mono (by norm_num)
    have h5 : Real.exp (-8:ℝ) * (normCdf 0 - normCdf (-2)) ≤ (1/2824) * 0.8 := by
      apply mul_le_mul exp_neg_eight_lt.le (by linarith) (by linarith)
      norm_num
    have h6 := normPdf_three_ge
    intro heq
    nlinarith [Real.exp_pos (-8:ℝ)]

/-! ## Claim C5: the gamma quirk -/

/-- C5 counterexample: the claim writes gamma as `Φ(d1)/(S·σ·√T)` with
the `r·T` term inside `d1`; the code computes `Φ(x1)` for the `r`-free
`x1`, and at `S=1, σ=2, K=1, T=1, r=8` the two differ. -/
theorem claim_C5_counterexample : callGamma 1 2 1 1 8 ≠ specGamma 1 2 1 1 8 := by
  have hcode : callGamma 1 2 1 1 8 = normCdf 1 / 2 := by
    dsimp only [callGamma, x1v]
    rw [show (1:ℝ)/1 = 1 by norm_num, Real.log_one, Real.sqrt_one]
    norm_num
  have hspec : specGamma 1 2 1 1 8 = normCdf 5 / 2 := by
    dsimp only [specGamma]
    rw [show (1:ℝ)/1 = 1 by norm_num, Real.log_one, Real.sqrt_one]
    norm_num
  rw [hcode, hspec]
  have hg : normPdf 2 * (2 - 1) ≤ normCdf 2 - normCdf 1 :=
    normCdf_sub_ge 1 2 (normPdf 2) (by norm_num)
      (fun t h1t h2t => normPdf_anti (by linarith) h2t)
  have h25 : normCdf 2 ≤ normCdf 5 := normCdf_mono (by norm_num)
  intro heq
  have heq2 : normCdf 1 = normCdf 5 := by linarith [heq]
  linarith [normPdf_two_ge]

/-- C5 amended: the gamma the Analytics Engine reports, identical for
calls and puts, is `Φ(x1)/(S·σ·√T)` where `x1` omits the `r·T` term —
the CDF-instead-of-PDF quirk is real, but it is applied to the
`r`-free `x1` of `options.py`, not to the textbook `d1`. -/
theorem claim_C5_amended_gamma : ∀ S σ K T r : ℝ,
    callGamma S σ K T r = putGamma S σ K T r ∧
    callGamma S σ K T r = specGammaNoR S σ K T r :=
  fun S σ K T r => ⟨rfl, rfl⟩

/-! ## Claim C7: the per-quote validity test -/

theorem optPos_iff (x : Option ℚ) :
    optPos x = true ↔ ∃ w, x = some w ∧ 0 < w := by
  cases x <;> simp [optPos]

theorem hasPrice_iff (bid ask last : Option ℚ) :
    (optPos bid || optPos ask || optPos last) = true ↔
      ∃ p, (p = bid ∨ p = ask ∨ p = last) ∧ ∃ v, p = some v ∧ 0 < v := by
  simp only [Bool.or_eq_true, optPos_iff]
  constructor
  · rintro ((⟨w, hw, hpos⟩ | ⟨w, hw, hpos⟩) | ⟨w, hw, hpos⟩)
    · exact ⟨bid, Or.inl rfl, w, hw, hpos⟩
    · exact ⟨ask, Or.inr (Or.inl rfl), w, hw, hpos⟩
    · exact ⟨last, Or.inr (Or.inr rfl), w, hw, hpos⟩
  · rintro ⟨p, (rfl | rfl | rfl), w, hw, hpos⟩
    · exact Or.inl (Or.inl ⟨w, hw, hpos⟩)
    · exact Or.inl (Or.inr ⟨w, hw, hpos⟩)
    · exact Or.inr ⟨w, hw, hpos⟩

/-- C7: `is_bad_quote` rejects a quote iff its implied-vol estimate is
missing, `≤ 0` or `> 5.0`, or none of bid/ask/lastPrice is a positive
finite number; the sanitation step drops rejected quotes entirely (the
output is a sublist of the input, so survivors are unmodified and in
order) and keeps exactly the non-rejected ones. -/
theorem claim_C7_bad_quote : ∀ (o : Quote) (l : List Quote),
    (is_bad_quote o = true ↔ specBadQuote o) ∧
    (sanitize l).Sublist l ∧
    (o ∈ sanitize l ↔ o ∈ l ∧ is_bad_quote o = false) := by
  intro o l
  refine ⟨?_, List.filter_sublist l, ?_⟩
  · cases h : o.impliedVolatility with
    | none =>
      apply iff_of_true
      · simp [is_bad_quote, h]
      · exact Or.inl (Or.inl h)
    | some v =>
      simp only [is_bad_quote, h]
      by_cases hv : v ≤ 0 ∨ 5 < v
      · rw [if_pos hv]
        exact iff_of_true rfl (Or.inl (Or.inr ⟨v, h, hv⟩))
      · rw [if_neg hv]
        by_cases hp : (optPos o.bid || optPos o.ask || optPos o.lastPrice) = true
        · rw [if_pos hp]
          refine iff_of_false (by simp) ?_
          rintro ((hnone | ⟨w, hw, hbad⟩) | hnop)
          · rw [h] at hnone
            exact Option.noConfusion hnone
          · rw [h] at hw
            injection hw with hw2
            subst hw2
            exact hv hbad
          · exact hnop ((hasPrice_iff _ _ _).1 hp)
        · rw [if_neg hp]
          refine iff_of_true rfl (Or.inr ?_)
          exact fun hex => hp ((hasPrice_iff _ _ _).2 hex)
  · simp [sanitize, List.mem_filter]

/-! ## Claim C8: outlier rejection -/

theorem filterMap_zip_filter (f : Quote → Option ℚ) (pred : Option ℚ → Bool) :
    ∀ l : List Quote,
      ((l.zip (l.map f)).filter (fun p => pred p.2)).map Prod.fst
        = l.filter (fun o => pred (f o)) := by
  intro l
  induction l with
  | nil => rfl
  | cons h t ih =>
    simp only [List.map_cons, List.zip_cons_cons, List.filter_cons]
    cases hp : pred (f h) <;> simp [hp, ih]

/-- C8: the outlier step returns the list unchanged when fewer than 8
quotes carry a valid implied vol, and otherwise keeps exactly the
quotes whose implied vol lies in `[Q1 − 3·IQR, Q3 + 3·IQR]` with the
index-based quartiles `sorted[len/4]`, `sorted[3·len/4]`; the output
is a sublist of the input (relative order preserved, quotes
unmodified). -/
theorem claim_C8_outlier_filter : ∀ l : List Quote,
    reject_outliers l = specOutlierFilter l ∧
    (reject_outliers l).Sublist l := by
  intro l
  have h0 : (l.map fun o => o.impliedVolatility).filterMap id
      = l.filterMap fun o => o.impliedVolatility := by
    rw [List.filterMap_map]
    rfl
  have hkey : reject_outliers l = specOutlierFilter l := by
    unfold reject_outliers specOutlierFilter specQ1 specQ3 sortedIvs
    dsimp only
    rw [h0]
    set s0 := (l.filterMap fun o => o.impliedVolatility).mergeSort qLe with hs
    set A := s0.getD (s0.length / 4) 0 -
      3 * (s0.getD (3 * s0.length / 4) 0 - s0.getD (s0.length / 4) 0) with hA
    set B := s0.getD (3 * s0.length / 4) 0 +
      3 * (s0.getD (3 * s0.length / 4) 0 - s0.getD (s0.length / 4) 0) with hB
    split
    · rfl
    · exact filterMap_zip_filter (fun o => o.impliedVolatility)
        (fun x => match x with
          | some iv => decide (A ≤ iv ∧ iv ≤ B)
          | none => false) l
  refine ⟨hkey, ?_⟩
  rw [hkey]
  unfold specOutlierFilter
  split
  · exact List.Sublist.refl l
  · exact List.filter_sublist l

/-! ## Claim C1: the solver preconditions (swapped intrinsic) -/

/-- C1 (code bug): at `marketPrice = 0.9, S = 2, K = 1, T = 1, r = 0`
for a call, the claim's no-arbitrage precondition fails — `0.9` does
not exceed the textbook call intrinsic `max(0, S−K) = 1` plus `1e-5` —
so by the claim no solve may be attempted.  The source computes the
intrinsic with the call/put branches swapped
(`(S-K) if not is_call else (K-S)`), gets `max(0, K−S) = 0`, passes
its guard, and runs the bisection loop. -/
theorem claim_C1_intrinsic_swapped :
    (0.9 : ℝ) ≤ max 0 (2 - 1) + 1e-5 ∧
    solve_iv (some 0.9) 2 (some 1) 1 0 true =
      .ok (solveLoop (fun σ => bs_call 2 1 1 0 σ) 0.9 120 1e-5 10) := by
  constructor
  · norm_num
  · simp only [solve_iv]
    rw [if_neg (by norm_num)]
    rw [if_neg (by
      simp only [if_true]
      rw [show (0:ℝ) ⊔ (1 - 2) = 0 from max_eq_left (by norm_num)]
      norm_num)]
    simp

/-! ## Claim C10: no fallback to the provider estimate -/

/-- C10: when bid and ask are both positive (so a mid-price exists)
and the implied-vol solve on that mid returns `None`, `add_greeks`
sets the five computed fields to absent and leaves the
`impliedVolatility` field exactly as it was — the provider estimate is
never used once a mid-price was available. -/
theorem claim_C10_no_provider_fallback :
    ∀ (q : GQuote) (c : Bool) (spot T r b a : ℝ),
    q.bid = some b → q.ask = some a → 0 < b → 0 < a →
    solve_iv (some ((b + a) / 2)) spot q.strike T r c = .ok none →
    ∃ q2, add_greeks q c spot T r = .ok q2 ∧
      q2.BSprice = none ∧ q2.delta = none ∧ q2.gamma = none ∧
      q2.vega = none ∧ q2.theta = none ∧
      q2.impliedVolatility = q.impliedVolatility := by
  intro q c spot T r b a hb ha hbpos hapos hsolve
  refine ⟨setAbsent q, ?_, rfl, rfl, rfl, rfl, rfl, rfl⟩
  unfold add_greeks
  rw [show midPrice q.bid q.ask = some ((b + a) / 2) from by
    rw [hb, ha]
    simp only [midPrice]
    rw [if_pos ⟨hbpos, hapos⟩]]
  dsimp only
  rw [if_pos (show (b + a) / 2 ≠ 0 from ne_of_gt (by linarith))]
  rw [hsolve]
  dsimp only
  unfold attachGreeks
  rw [if_neg (show ¬truthyOpt none from fun h => h)]
  rw [if_pos (Or.inl (show badOpt none from trivial))]

/-- C10 witness: a concrete quote with bid = ask = 2 and a negative
time to expiry, for which the solve returns `None` by its first
guard. -/
theorem claim_C10_witness :
    ∃ q2, add_greeks
        ⟨some 1, some 2, some 2, none, some 0.3, none, none, none, none, none⟩
        true 100 (-1) 0 = .ok q2 ∧
      q2.BSprice = none ∧ q2.delta = none ∧ q2.gamma = none ∧
      q2.vega = none ∧ q2.theta = none ∧
      q2.impliedVolatility = some 0.3 := by
  have h := claim_C10_no_provider_fallback
    ⟨some 1, some 2, some 2, none, some 0.3, none, none, none, none, none⟩
    true 100 (-1) 0 2 2 rfl rfl (by norm_num) (by norm_num)
    (by
      simp only [solve_iv]
      rw [if_pos (Or.inl (by norm_num))])
  exact h

/-! ## Claim C6: the Greek-attachment guards -/

/-- C6 (code bug): the claim says an absent strike yields five absent
outputs with no exception; but with positive bid and ask the code
calls `solve_iv` before its guard line, and `solve_iv` reaches the
intrinsic-value computation with `K = None`, raising an uncaught
`TypeError` that propagates out of `add_greeks`. -/
theorem claim_C6_absent_strike_raises :
    add_greeks ⟨none, some 1, some 1, none, some 0.3, none, none, none, none, none⟩
      true 100 1 0.05 = .error () := by
  unfold add_greeks
  rw [show midPrice
      (⟨none, some 1, some 1, none, some 0.3, none, none, none, none,
        none⟩ : GQuote).bid
      (⟨none, some 1, some 1, none, some 0.3, none, none, none, none,
        none⟩ : GQuote).ask = some ((1 + 1) / 2) from by
    simp only [midPrice]
    rw [if_pos ⟨by norm_num, by norm_num⟩]]
  dsimp only
  rw [if_pos (show ((1:ℝ) + 1) / 2 ≠ 0 by norm_num)]
  have hs : solve_iv (some (((1:ℝ) + 1) / 2)) 100 none 1 0.05 true = .error () := by
    simp only [solve_iv]
    rw [if_neg (by norm_num)]
  rw [hs]

/-! ## Claim C9: the Surface Builder is total -/

theorem linspace_length (a b : ℚ) : (linspace a b).length = 50 := by
  unfold linspace
  rw [List.length_map, List.length_range]

/-- C9: fewer than 4 usable points yields an absent surface; with at
least 4 points the output is a fully populated 50×50 grid — whatever
partial behavior the linear interpolant has, every cell carries the
linear value where it is defined and the nearest-neighbor value
elsewhere, so no cell is missing and no failure escapes. -/
theorem claim_C9_surface_total :
    ∀ (pts : List SurfacePoint) (lin : ℚ → ℚ → Option ℚ),
    (buildSurface pts lin = none ↔ pts.length < 4) ∧
    (∀ s, buildSurface pts lin = some s →
      s.x.length = 50 ∧ s.y.length = 50 ∧ s.z.length = 50 ∧
      ∀ row ∈ s.z, row.length = 50 ∧
        ∃ t ∈ s.y, row = s.x.map fun k => (lin k t).getD (nearestVal pts k t)) := by
  intro pts lin
  constructor
  · by_cases hl : pts.length < 4
    · unfold buildSurface
      rw [if_pos hl]
      exact iff_of_true rfl hl
    · unfold buildSurface
      rw [if_neg hl]
      exact iff_of_false (by simp) hl
  · intro s hs
    unfold buildSurface at hs
    by_cases hl : pts.length < 4
    · rw [if_pos hl] at hs
      exact absurd hs (by simp)
    · rw [if_neg hl] at hs
      dsimp only at hs
      injection hs with hs2
      subst hs2
      refine ⟨linspace_length _ _, linspace_length _ _, ?_, ?_⟩
      · rw [List.length_map, linspace_length]
      · intro row hrow
        rcases List.mem_map.1 hrow with ⟨t, ht, rfl⟩
        exact ⟨by rw [List.length_map, linspace_length], t, ht, rfl⟩

/-- C9 witness: four concrete points and an everywhere-undefined
linear interpolant still produce a full 50-row surface. -/
theorem claim_C9_witness :
    ∃ s, buildSurface [(1, 1, 1), (2, 1, 1), (1, 2, 1), (2, 2, 1)]
        (fun k t => none) = some s ∧ s.z.length = 50 := by
  have hne : buildSurface [((1:ℚ), (1:ℚ), (1:ℚ)), (2, 1, 1), (1, 2, 1), (2, 2, 1)]
      (fun k t => none) ≠ none := by
    rw [Ne, (claim_C9_surface_total _ _).1]
    decide
  obtain ⟨s, hs⟩ := Option.ne_none_iff_exists'.mp hne
  exact ⟨s, hs, ((claim_C9_surface_total _ _).2 s hs).2.2.1⟩

/-! ## Claim C3: range of returned volatilities -/

theorem solveLoop_succ (fn : ℝ → Option ℝ) (m : ℝ) (n : ℕ) (lo hi : ℝ) :
    solveLoop fn m (n + 1) lo hi =
      match fn ((lo + hi) / 2) with
      | none => none
      | some p =>
        if |p - m| < 1e-6 then some ((lo + hi) / 2)
        else if p < m then solveLoop fn m n ((lo + hi) / 2) hi
        else solveLoop fn m n lo ((lo + hi) / 2) := rfl

theorem solveLoop_mem (fn : ℝ → Option ℝ) (m : ℝ) :
    ∀ (fuel : ℕ) (lo hi v : ℝ), 1e-5 ≤ lo → lo < hi → hi ≤ 10 →
    solveLoop fn m fuel lo hi = some v →
    (1e-5 < v ∧ v < 10) ∧
      ((0.001 < v ∧ v < 9.9) ∨ ∃ p, fn v = some p ∧ |p - m| < 1e-6) := by
  intro fuel
  induction fuel with
  | zero =>
    intro lo hi v h1 h2 h3 hres
    simp only [solveLoop] at hres
    split at hres
    · injection hres with hv
      subst hv
      refine ⟨⟨by linarith, by linarith⟩, Or.inl (by assumption)⟩
    · exact absurd hres (by simp)
  | succ n ih =>
    intro lo hi v h1 h2 h3 hres
    simp only [solveLoop] at hres
    cases hfn : fn ((lo + hi) / 2) with
    | none =>
      rw [hfn] at hres
      exact absurd hres (by simp)
    | some p =>
      rw [hfn] at hres
      dsimp only at hres
      by_cases habs : |p - m| < 1e-6
      · rw [if_pos habs] at hres
        injection hres with hv
        subst hv
        exact ⟨⟨by linarith, by linarith⟩, Or.inr ⟨p, hfn, habs⟩⟩
      · rw [if_neg habs] at hres
        by_cases hlt : p < m
        · rw [if_pos hlt] at hres
          exact ih ((lo + hi) / 2) hi v (by linarith) (by linarith) h3 hres
        · rw [if_neg hlt] at hres
          exact ih lo ((lo + hi) / 2) v h1 (by linarith) (by linarith) hres

/-- C3 amended: every volatility the solver returns lies strictly
inside the bracket `(1e-5, 10)`; a returned volatility outside the
acceptance band `(0.001, 9.9)` can only come from the early exit, so
its model price is within `1e-6` of the market price; the post-loop
value is band-checked by the code itself.  (The claim's stronger
statement — that ALL returned values lie in `(0.001, 9.9)` — fails,
see the counterexample.) -/
theorem claim_C3_amended_returned_range :
    ∀ (m S k T r : ℝ) (c : Bool) (v : ℝ),
    solve_iv (some m) S (some k) T r c = .ok (some v) →
    (1e-5 < v ∧ v < 10) ∧
      ((0.001 < v ∧ v < 9.9) ∨
        ∃ p, (if c then bs_call S k T r v else bs_put S k T r v) = some p ∧
          |p - m| < 1e-6) := by
  intro m S k T r c v hres
  simp only [solve_iv] at hres
  by_cases h1 : T ≤ 0 ∨ m ≤ 0
  · rw [if_pos h1] at hres
    exact absurd hres (by simp)
  · rw [if_neg h1] at hres
    by_cases h2 : m ≤ max 0 (if c = true then k - S else S - k) + 1e-5
    · rw [if_pos h2] at hres
      exact absurd hres (by simp)
    · rw [if_neg h2] at hres
      injection hres with hres2
      exact solveLoop_mem _ m 120 1e-5 10 v le_rfl (by norm_num) le_rfl hres2

theorem bs_call_CC (σ : ℝ) (hσ : 0 < σ) :
    bs_call 1 1 1 0 σ = some (normCdf (σ / 2) - normCdf (-(σ / 2))) := by
  have h1 : d1v 1 1 1 0 σ = σ / 2 := by
    unfold d1v
    rw [show (1:ℝ)/1 = 1 by norm_num, Real.log_one, Real.sqrt_one]
    field_simp
    ring
  have h2 : d2v 1 1 1 0 σ = -(σ / 2) := by
    unfold d2v
    rw [h1, Real.sqrt_one]
    ring
  unfold bs_call
  rw [if_neg (by
    push_neg
    constructor
    · norm_num
    · rw [Real.sqrt_one, mul_one]
      exact hσ.ne')]
  congr 1
  unfold bsCallVal
  rw [h1, h2, show (-(0:ℝ) * 1) = 0 by ring, Real.exp_zero]
  ring

/-- C3 witness for the amended theorem: an input on which the solver
demonstrably returns a volatility (one-step early exit at the first
midpoint). -/
theorem claim_C3_witness :
    ∃ v, solve_iv
        (some (normCdf ((1e-5 + 10) / 2 / 2) - normCdf (-((1e-5 + 10) / 2 / 2))))
        1 (some 1) 1 0 true = .ok (some v) ∧ 1e-5 < v ∧ v < 10 := by
  have hm : (0.4 : ℝ) ≤
      normCdf ((1e-5 + 10) / 2 / 2) - normCdf (-((1e-5 + 10) / 2 / 2)) := by
    have ha : normCdf 1 ≤ normCdf ((1e-5 + 10) / 2 / 2) := normCdf_mono (by norm_num)
    have hb : normCdf (-((1e-5 + 10) / 2 / 2)) ≤ normCdf (-1) := normCdf_mono (by norm_num)
    have hc : (0.2 : ℝ) * (1 - (-1)) ≤ normCdf 1 - normCdf (-1) :=
      normCdf_sub_ge (-1) 1 0.2 (by norm_num)
        (fun t ht1 ht2 => normPdf_ge_02 t (by nlinarith))
    linarith
  have heval : solve_iv
      (some (normCdf ((1e-5 + 10) / 2 / 2) - normCdf (-((1e-5 + 10) / 2 / 2))))
      1 (some 1) 1 0 true = .ok (some ((1e-5 + 10) / 2)) := by
    simp only [solve_iv]
    rw [if_neg (by
      push_neg
      exact ⟨by norm_num, by linarith⟩)]
    rw [if_neg (by
      rw [if_pos trivial, show (1:ℝ) - 1 = 0 from by norm_num, max_self]
      push_neg
      linarith)]
    congr 1
    rw [show (120 : ℕ) = 119 + 1 from rfl, solveLoop_succ]
    rw [if_pos trivial]
    rw [bs_call_CC ((1e-5 + 10) / 2) (by norm_num)]
    dsimp only
    rw [sub_self, abs_zero]
    rw [if_pos (by norm_num : (0:ℝ) < 1e-6)]
  exact ⟨(1e-5 + 10) / 2, heval,
    (claim_C3_amended_returned_range _ _ _ _ _ _ _ heval).1⟩

/-! ## Claim C3 counterexample: an early exit below the band -/

theorem cc_price_mono {a b : ℝ} (hab : a ≤ b) :
    normCdf (a / 2) - normCdf (-(a / 2)) ≤ normCdf (b / 2) - normCdf (-(b / 2)) := by
  have h1 := normCdf_mono (show a / 2 ≤ b / 2 by linarith)
  have h2 := normCdf_mono (show -(b / 2) ≤ -(a / 2) by linarith)
  linarith

theorem cc_price_gap {a b : ℝ} (h0 : 0 ≤ a) (hab : a ≤ b) (hb2 : b ≤ 2) :
    0.2 * (b - a) ≤
      (normCdf (b / 2) - normCdf (-(b / 2))) - (normCdf (a / 2) - normCdf (-(a / 2))) := by
  have h1 : 0.2 * (b / 2 - a / 2) ≤ normCdf (b / 2) - normCdf (a / 2) :=
    normCdf_sub_ge (a / 2) (b / 2) 0.2 (by linarith)
      (fun t ht1 ht2 => normPdf_ge_02 t (by
        nlinarith [mul_nonneg (show (0:ℝ) ≤ 1 - t by linarith)
          (show (0:ℝ) ≤ 1 + t by linarith)]))
  have h2 : 0.2 * (-(a / 2) - -(b / 2)) ≤ normCdf (-(a / 2)) - normCdf (-(b / 2)) :=
    normCdf_sub_ge (-(b / 2)) (-(a / 2)) 0.2 (by linarith)
      (fun t ht1 ht2 => normPdf_ge_02 t (by
        nlinarith [mul_nonneg (show (0:ℝ) ≤ 1 - t by linarith)
          (show (0:ℝ) ≤ 1 + t by linarith)]))
  linarith

theorem cc_step (M : ℝ) (n : ℕ) (lo hi : ℝ)
    (hmid : 0 < (lo + hi) / 2)
    (hge : M + 1e-6 ≤ normCdf ((lo + hi) / 2 / 2) - normCdf (-((lo + hi) / 2 / 2))) :
    solveLoop (fun σ => bs_call 1 1 1 0 σ) M (n + 1) lo hi =
      solveLoop (fun σ => bs_call 1 1 1 0 σ) M n lo ((lo + hi) / 2) := by
  rw [solveLoop_succ]
  rw [bs_call_CC _ hmid]
  dsimp only
  have hp : (1e-6 : ℝ) ≤
      |(normCdf ((lo + hi) / 2 / 2) - normCdf (-((lo + hi) / 2 / 2))) - M| := by
    rw [abs_of_nonneg (by linarith)]
    linarith
  rw [if_neg (not_lt.2 hp), if_neg (not_lt.2 (by linarith))]

/-- C3 counterexample: with `S = K = 1, T = 1, r = 0` (call) and a
market price equal to the model price at
`σ* = 1016383/1638400000 ≈ 0.00062` — the 14th bisection midpoint —
the solver hits the `1e-6` early exit at iteration 14 and returns
`σ*`, which lies BELOW `0.001`: a returned volatility outside the
claimed band `(0.001, 9.9)`. -/
theorem claim_C3_counterexample :
    solve_iv (some (normCdf ((1016383/1638400000 : ℝ) / 2)
        - normCdf (-((1016383/1638400000 : ℝ) / 2))))
      1 (some 1) 1 0 true = .ok (some (1016383/1638400000 : ℝ)) ∧
    (1016383/1638400000 : ℝ) < 0.001 := by
  refine ⟨?_, by norm_num⟩
  set σs : ℝ := 1016383/1638400000 with hσs
  set M : ℝ := normCdf (σs / 2) - normCdf (-(σs / 2)) with hM
  have hgap13 : M + 1e-6 ≤
      normCdf (((1008191 : ℝ)/819200000) / 2)
        - normCdf (-(((1008191 : ℝ)/819200000) / 2)) := by
    have h := cc_price_gap (a := σs) (b := ((1008191 : ℝ)/819200000))
      (by rw [hσs]; norm_num) (by rw [hσs]; norm_num) (by norm_num)
    rw [← hM] at h
    have h2 : (1e-6 : ℝ) ≤ 0.2 * (((1008191 : ℝ)/819200000) - σs) := by
      rw [hσs]
      norm_num
    linarith
  have hM_pos : (0 : ℝ) < M :=
    lt_trans (show (0:ℝ) < 1e-5 by norm_num) (by
      have h := cc_price_gap (a := (0:ℝ)) (b := σs) le_rfl
        (by rw [hσs]; norm_num) (by rw [hσs]; norm_num)
      rw [← hM] at h
      have hz : normCdf ((0:ℝ) / 2) - normCdf (-((0:ℝ) / 2)) = 0 := by
        norm_num
      rw [hz] at h
      have h2 : (1e-5 : ℝ) < 0.2 * (σs - 0) := by
        rw [hσs]
        norm_num
      linarith)
  have hM_lb : (1e-5 : ℝ) < M := by
    have h := cc_price_gap (a := (0:ℝ)) (b := σs) le_rfl
      (by rw [hσs]; norm_num) (by rw [hσs]; norm_num)
    rw [← hM] at h
    have hz : normCdf ((0:ℝ) / 2) - normCdf (-((0:ℝ) / 2)) = 0 := by
      norm_num
    rw [hz] at h
    have h2 : (1e-5 : ℝ) < 0.2 * (σs - 0) := by
      rw [hσs]
      norm_num
    linarith
  simp only [solve_iv]
  rw [if_neg (by push_neg; exact ⟨by norm_num, hM_pos⟩)]
  rw [if_neg (by
    rw [if_pos trivial, show (1:ℝ) - 1 = 0 from by norm_num, max_self]
    push_neg
    linarith [hM_lb])]
  congr 1
  rw [show (fun σ : ℝ => if True then bs_call 1 1 1 0 σ else bs_put 1 1 1 0 σ)
      = fun σ : ℝ => bs_call 1 1 1 0 σ from funext fun σ => if_pos trivial]
  rw [show (120 : ℕ) = 119 + 1 from rfl,
    cc_step M 119 (1e-5) (10) (by norm_num) (by
      have hmono := cc_price_mono
        (show ((1008191 : ℝ)/819200000) ≤ (1e-5 + 10) / 2 from by norm_num)
      linarith [hgap13, hmono])]
  rw [show (119 : ℕ) = 118 + 1 from rfl,
    cc_step M 118 (1e-5) ((1e-5 + 10) / 2) (by norm_num) (by
      have hmono := cc_price_mono
        (show ((1008191 : ℝ)/819200000) ≤ (1e-5 + (1e-5 + 10) / 2) / 2 from by norm_num)
      linarith [hgap13, hmono])]
  rw [show (118 : ℕ) = 117 + 1 from rfl,
    cc_step M 117 (1e-5) ((1e-5 + (1e-5 + 10) / 2) / 2) (by norm_num) (by
      have hmono := cc_price_mono
        (show ((1008191 : ℝ)/819200000) ≤ (1e-5 + (1e-5 + (1e-5 + 10) / 2) / 2) / 2 from by norm_num)
      linarith [hgap13, hmono])]
  rw [show (117 : ℕ) = 116 + 1 from rfl,
    cc_step M 116 (1e-5) ((1e-5 + (1e-5 + (1e-5 + 10) / 2) / 2) / 2) (by norm_num) (by
      have hmono := cc_price_mono
        (show ((1008191 : ℝ)/819200000) ≤ (1e-5 + (1e-5 + (1e-5 + (1e-5 + 10) / 2) / 2) / 2) / 2 from by norm_num)
      linarith [hgap13, hmono])]
  rw [show (116 : ℕ) = 115 + 1 from rfl,
    cc_step M 115 (1e-5) ((1e-5 + (1e-5 + (1e-5 + (1e-5 + 10) / 2) / 2) / 2) / 2) (by norm_num) (by
      have hmono := cc_price_mono
        (show ((1008191 : ℝ)/819200000) ≤ (1e-5 + (1e-5 + (1e-5 + (1e-5 + (1e-5 + 10) / 2) / 2) / 2) / 2) / 2 from by norm_num)
      linarith [hgap13, hmono])]
  rw [show (115 : ℕ) = 114 + 1 from rfl,
    cc_step M 114 (1e-5) ((1e-5 + (1e-5 + (1e-5 + (1e-5 + (1e-5 + 10) / 2) / 2) / 2) / 2) / 2) (by norm_num) (by
      have hmono := cc_price_mono
        (show ((1008191 : ℝ)/819200000) ≤ (1e-5 + (1e-5 + (1e-5 + (1e-5 + (1e-5 + (1e-5 + 10) / 2) / 2) / 2) / 2) / 2) / 2 from by norm_num)
      linarith [hgap13, hmono])]
  rw [show (114 : ℕ) = 113 + 1 from rfl,
    cc_step M 113 (1e-5) ((1e-5 + (1e-5 + (1e-5 + (1e-5 + (1e-5 + (1e-5 + 10) / 2) / 2) / 2) / 2) / 2) / 2) (by norm_num) (by
      have hmono := cc_price_mono
        (show ((1008191 : ℝ)/819200000) ≤ (1e-5 + (1e-5 + (1e-5 + (1e-5 + (1e-5 + (1e-5 + (1e-5 + 10) / 2) / 2) / 2) / 2) / 2) / 2) / 2 from by norm_num)
      linarith [hgap13, hmono])]
  rw [show (113 : ℕ) = 112 + 1 from rfl,
    cc_step M 112 (1e-5) ((1e-5 + (1e-5 + (1e-5 + (1e-5 + (1e-5 + (1e-5 + (1e-5 + 10) / 2) / 2) / 2) / 2) / 2) / 2) / 2) (by norm_num) (by
      have hmono := cc_price_mono
        (show ((1008191 : ℝ)/819200000) ≤ (1e-5 + (1e-5 + (1e-5 + (1e-5 + (1e-5 + (1e-5 + (1e-5 + (1e-5 + 10) / 2) / 2) / 2) / 2) / 2) / 2) / 2) / 2 from by norm_num)
      linarith [hgap13, hmono])]
  rw [show (112 : ℕ) = 111 + 1 from rfl,
    cc_step M 111 (1e-5) ((1e-5 + (1e-5 + (1e-5 + (1e-5 + (1e-5 + (1e-5 + (1e-5 + (1e-5 + 10) / 2) / 2) / 2) / 2) / 2) / 2) / 2) / 2) (by norm_num) (by
      have hmono := cc_price_mono
        (show ((1008191 : ℝ)/819200000) ≤ (1e-5 + (1e-5 + (1e-5 + (1e-5 + (1e-5 + (1e-5 + (1e-5 + (1e-5 + (1e-5 + 10) / 2) / 2) / 2) / 2) / 2) / 2) / 2) / 2) / 2 from by norm_num)
      linarith [hgap13, hmono])]
  rw [show (111 : ℕ) = 110 + 1 from rfl,
    cc_step M 110 (1e-5) ((1e-5 + (1e-5 + (1e-5 + (1e-5 + (1e-5 + (1e-5 + (1e-5 + (1e-5 + (1e-5 + 10) / 2) / 2) / 2) / 2) / 2) / 2) / 2) / 2) / 2) (by norm_num) (by
      have hmono := cc_price_mono
        (show ((1008191 : ℝ)/819200000) ≤ (1e-5 + (1e-5 + (1e-5 + (1e-5 + (1e-5 + (1e-5 + (1e-5 + (1e-5 + (1e-5 + (1e-5 + 10) / 2) / 2) / 2) / 2) / 2) / 2) / 2) / 2) / 2) / 2 from by norm_num)
      linarith [hgap13, hmono])]
  rw [show (110 : ℕ) = 109 + 1 from rfl,
    cc_step M 109 (1e-5) ((1e-5 + (1e-5 + (1e-5 + (1e-5 + (1e-5 + (1e-5 + (1e-5 + (1e-5 + (1e-5 + (1e-5 + 10) / 2) / 2) / 2) / 2) / 2) / 2) / 2) / 2) / 2) / 2) (by norm_num) (by
      have hmono := cc_price_mono
        (show ((1008191 : ℝ)/819200000) ≤ (1e-5 + (1e-5 + (1e-5 + (1e-5 + (1e-5 + (1e-5 + (1e-5 + (1e-5 + (1e-5 + (1e-5 + (1e-5 + 10) / 2) / 2) / 2) / 2) / 2) / 2) / 2) / 2) / 2) / 2) / 2 from by norm_num)
      linarith [hgap13, hmono])]
  rw [show (109 : ℕ) = 108 + 1 from rfl,
    cc_step M 108 (1e-5) ((1e-5 + (1e-5 + (1e-5 + (1e-5 + (1e-5 + (1e-5 + (1e-5 + (1e-5 + (1e-5 + (1e-5 + (1e-5 + 10) / 2) / 2) / 2) / 2) / 2) / 2) / 2) / 2) / 2) / 2) / 2) (by norm_num) (by
      have hmono := cc_price_mono
        (show ((1008191 : ℝ)/819200000) ≤ (1e-5 + (1e-5 + (1e-5 + (1e-5 + (1e-5 + (1e-5 + (1e-5 + (1e-5 + (1e-5 + (1e-5 + (1e-5 + (1e-5 + 10) / 2) / 2) / 2) / 2) / 2) / 2) / 2) / 2) / 2) / 2) / 2) / 2 from by norm_num)
      linarith [hgap13, hmono])]
  rw [show (108 : ℕ) = 107 + 1 from rfl,
    cc_step M 107 (1e-5) ((1e-5 + (1e-5 + (1e-5 + (1e-5 + (1e-5 + (1e-5 + (1e-5 + (1e-5 + (1e-5 + (1e-5 + (1e-5 + (1e-5 + 10) / 2) / 2) / 2) / 2) / 2) / 2) / 2) / 2) / 2) / 2) / 2) / 2) (by norm_num) (by
      have hmono := cc_price_mono
        (show ((1008191 : ℝ)/819200000) ≤ (1e-5 + (1e-5 + (1e-5 + (1e-5 + (1e-5 + (1e-5 + (1e-5 + (1e-5 + (1e-5 + (1e-5 + (1e-5 + (1e-5 + (1e-5 + 10) / 2) / 2) / 2) / 2) / 2) / 2) / 2) / 2) / 2) / 2) / 2) / 2) / 2 from by norm_num)
      linarith [hgap13, hmono])]
  rw [show (107 : ℕ) = 106 + 1 from rfl, solveLoop_succ]
  rw [show ((1e-5 : ℝ) + (1e-5 + (1e-5 + (1e-5 + (1e-5 + (1e-5 + (1e-5 + (1e-5 + (1e-5 + (1e-5 + (1e-5 + (1e-5 + (1e-5 + (1e-5 + 10) / 2) / 2) / 2) / 2) / 2) / 2) / 2) / 2) / 2) / 2) / 2) / 2) / 2) / 2 = σs from by rw [hσs]; norm_num]
  rw [bs_call_CC σs (by rw [hσs]; norm_num)]
  dsimp only
  rw [← hM, sub_self, abs_zero, if_pos (by norm_num : (0:ℝ) < 1e-6)]

/-! ## Claim C4: the price/implied-vol round trip -/

/-- C4 counterexample: σ = 0.5 lies in (0.01, 3.0), the put
S = 2, K = 1, T = 1, r = 0 has a positive Black-Scholes price, but
`solve_iv` on that very model price returns `None`: the swapped
intrinsic (`max(0, S−K) = 1` for a put) makes the guard reject the
price, which can never exceed `K = 1`.  The round trip claimed for
every σ in (0.01, 3.0) therefore fails. -/
theorem claim_C4_counterexample :
    ((0.01 : ℝ) < 0.5 ∧ (0.5 : ℝ) < 3) ∧
    solve_iv (some (bsPutVal 2 1 1 0 0.5)) 2 (some 1) 1 0 false = .ok none := by
  refine ⟨⟨by norm_num, by norm_num⟩, ?_⟩
  have h1 := normCdf_le_one (-d2v 2 1 1 0 0.5)
  have h2 := normCdf_nonneg (-d1v 2 1 1 0 0.5)
  have hval : bsPutVal 2 1 1 0 0.5 ≤ 1 := by
    unfold bsPutVal
    rw [show (-(0:ℝ) * 1) = 0 from by ring, Real.exp_zero]
    nlinarith
  simp only [solve_iv]
  by_cases hm : bsPutVal 2 1 1 0 0.5 ≤ 0
  · rw [if_pos (Or.inr hm)]
  · rw [if_neg (by push_neg; exact ⟨by norm_num, lt_of_not_le hm⟩)]
    rw [if_pos (by
      rw [if_neg (by simp), show max (0:ℝ) (2 - 1) = 1 from by
        rw [max_eq_right (by norm_num : (0:ℝ) ≤ 2 - 1)]
        norm_num]
      linarith)]

theorem d1v_affine (S K r : ℝ) {T : ℝ} (hT : 0 < T) {s : ℝ} (hs : s ≠ 0) :
    d1v S K T r s =
      (Real.log (S / K) + r * T) / Real.sqrt T / s + Real.sqrt T / 2 * s := by
  have hsq : Real.sqrt T ^ 2 = T := Real.sq_sqrt hT.le
  have hst : Real.sqrt T ≠ 0 := (Real.sqrt_pos.2 hT).ne'
  unfold d1v
  set u := Real.sqrt T with hu
  rw [← hsq]
  field_simp
  ring

theorem normPdf_neg (x : ℝ) : normPdf (-x) = normPdf x := by
  unfold normPdf
  rw [neg_sq]

theorem d1d2_sq_diff (S K T r : ℝ) (hT : 0 < T) (σ : ℝ) (hσ : 0 < σ) :
    d1v S K T r σ ^ 2 - d2v S K T r σ ^ 2 = 2 * (Real.log (S / K) + r * T) := by
  have h1 := d1v_affine S K r hT hσ.ne'
  have hst : (0:ℝ) < Real.sqrt T := Real.sqrt_pos.2 hT
  unfold d2v
  rw [h1]
  field_simp
  ring

theorem bs_identity (S K T r : ℝ) (hS : 0 < S) (hK : 0 < K) (hT : 0 < T)
    (σ : ℝ) (hσ : 0 < σ) :
    K * Real.exp (-r * T) * normPdf (d2v S K T r σ) = S * normPdf (d1v S K T r σ) := by
  have hsq := d1d2_sq_diff S K T r hT σ hσ
  have hexp2 : Real.exp (-(d2v S K T r σ ^ 2) / 2)
      = Real.exp (-(d1v S K T r σ ^ 2) / 2) * (S / K * Real.exp (r * T)) := by
    rw [show S / K * Real.exp (r * T) = Real.exp (Real.log (S / K) + r * T) from by
      rw [Real.exp_add, Real.exp_log (div_pos hS hK)]]
    rw [← Real.exp_add]
    congr 1
    linarith
  unfold normPdf
  rw [hexp2, show (-r * T) = -(r * T) from by ring, Real.exp_neg]
  field_simp [(Real.exp_pos (r * T)).ne']
  ring

theorem hasDerivAt_bsCallVal (S K T r : ℝ) (hS : 0 < S) (hK : 0 < K) (hT : 0 < T)
    (σ : ℝ) (hσ : 0 < σ) :
    HasDerivAt (fun s => bsCallVal S K T r s)
      (S * normPdf (d1v S K T r σ) * Real.sqrt T) σ := by
  have hstpos : (0:ℝ) < Real.sqrt T := Real.sqrt_pos.2 hT
  have hd1 : HasDerivAt (fun s => d1v S K T r s)
      (-((Real.log (S / K) + r * T) / Real.sqrt T) / σ ^ 2 + Real.sqrt T / 2) σ := by
    have hg : HasDerivAt
        (fun s : ℝ => (Real.log (S / K) + r * T) / Real.sqrt T / s + Real.sqrt T / 2 * s)
        (-((Real.log (S / K) + r * T) / Real.sqrt T) / σ ^ 2 + Real.sqrt T / 2) σ := by
      have h1 : HasDerivAt
          (fun s : ℝ => (Real.log (S / K) + r * T) / Real.sqrt T / s)
          (-((Real.log (S / K) + r * T) / Real.sqrt T) / σ ^ 2) σ := by
        have h2 : (fun s : ℝ => (Real.log (S / K) + r * T) / Real.sqrt T / s)
            = fun s : ℝ => (Real.log (S / K) + r * T) / Real.sqrt T * s⁻¹ := by
          funext s
          rw [div_eq_mul_inv]
        rw [h2, show -((Real.log (S / K) + r * T) / Real.sqrt T) / σ ^ 2
            = (Real.log (S / K) + r * T) / Real.sqrt T * (-(σ ^ 2)⁻¹) from by ring]
        exact (hasDerivAt_inv hσ.ne').const_mul _
      have h3 : HasDerivAt (fun s : ℝ => Real.sqrt T / 2 * s) (Real.sqrt T / 2) σ := by
        simpa using (hasDerivAt_id σ).const_mul (Real.sqrt T / 2)
      exact h1.add h3
    apply hg.congr_of_eventuallyEq
    filter_upwards [eventually_ne_nhds hσ.ne'] with s hs
    exact d1v_affine S K r hT hs
  have hd2 : HasDerivAt (fun s => d2v S K T r s)
      ((-((Real.log (S / K) + r * T) / Real.sqrt T) / σ ^ 2 + Real.sqrt T / 2)
        - Real.sqrt T) σ := by
    unfold d2v
    exact hd1.sub (by simpa using (hasDerivAt_id σ).mul_const (Real.sqrt T))
  have hΦ1 : HasDerivAt (fun s => normCdf (d1v S K T r s))
      (normPdf (d1v S K T r σ)
        * (-((Real.log (S / K) + r * T) / Real.sqrt T) / σ ^ 2 + Real.sqrt T / 2)) σ :=
    (normCdf_hasDerivAt (d1v S K T r σ)).comp σ hd1
  have hΦ2 : HasDerivAt (fun s => normCdf (d2v S K T r s))
      (normPdf (d2v S K T r σ)
        * ((-((Real.log (S / K) + r * T) / Real.sqrt T) / σ ^ 2 + Real.sqrt T / 2)
          - Real.sqrt T)) σ :=
    (normCdf_hasDerivAt (d2v S K T r σ)).comp σ hd2
  have hprice : HasDerivAt (fun s => bsCallVal S K T r s)
      (S * (normPdf (d1v S K T r σ)
          * (-((Real.log (S / K) + r * T) / Real.sqrt T) / σ ^ 2 + Real.sqrt T / 2))
        - K * Real.exp (-r * T) * (normPdf (d2v S K T r σ)
          * ((-((Real.log (S / K) + r * T) / Real.sqrt T) / σ ^ 2 + Real.sqrt T / 2)
            - Real.sqrt T))) σ := by
    unfold bsCallVal
    exact (hΦ1.const_mul S).sub (hΦ2.const_mul (K * Real.exp (-r * T)))
  have hval : S * (normPdf (d1v S K T r σ)
        * (-((Real.log (S / K) + r * T) / Real.sqrt T) / σ ^ 2 + Real.sqrt T / 2))
      - K * Real.exp (-r * T) * (normPdf (d2v S K T r σ)
        * ((-((Real.log (S / K) + r * T) / Real.sqrt T) / σ ^ 2 + Real.sqrt T / 2)
          - Real.sqrt T))
      = S * normPdf (d1v S K T r σ) * Real.sqrt T := by
    linear_combination
      (Real.sqrt T - (-((Real.log (S / K) + r * T) / Real.sqrt T) / σ ^ 2
        + Real.sqrt T / 2)) * bs_identity S K T r hS hK hT σ hσ
  exact hval ▸ hprice

theorem hasDerivAt_bsPutVal (S K T r : ℝ) (hS : 0 < S) (hK : 0 < K) (hT : 0 < T)
    (σ : ℝ) (hσ : 0 < σ) :
    HasDerivAt (fun s => bsPutVal S K T r s)
      (S * normPdf (d1v S K T r σ) * Real.sqrt T) σ := by
  have hd1 : HasDerivAt (fun s => d1v S K T r s)
      (-((Real.log (S / K) + r * T) / Real.sqrt T) / σ ^ 2 + Real.sqrt T / 2) σ := by
    have hg : HasDerivAt
        (fun s : ℝ => (Real.log (S / K) + r * T) / Real.sqrt T / s + Real.sqrt T / 2 * s)
        (-((Real.log (S / K) + r * T) / Real.sqrt T) / σ ^ 2 + Real.sqrt T / 2) σ := by
      have h1 : HasDerivAt
          (fun s : ℝ => (Real.log (S / K) + r * T) / Real.sqrt T / s)
          (-((Real.log (S / K) + r * T) / Real.sqrt T) / σ ^ 2) σ := by
        have h2 : (fun s : ℝ => (Real.log (S / K) + r * T) / Real.sqrt T / s)
            = fun s : ℝ => (Real.log (S / K) + r * T) / Real.sqrt T * s⁻¹ := by
          funext s
          rw [div_eq_mul_inv]
        rw [h2, show -((Real.log (S / K) + r * T) / Real.sqrt T) / σ ^ 2
            = (Real.log (S / K) + r * T) / Real.sqrt T * (-(σ ^ 2)⁻¹) from by ring]
        exact (hasDerivAt_inv hσ.ne').const_mul _
      have h3 : HasDerivAt (fun s : ℝ => Real.sqrt T / 2 * s) (Real.sqrt T / 2) σ := by
        simpa using (hasDerivAt_id σ).const_mul (Real.sqrt T / 2)
      exact h1.add h3
    apply hg.congr_of_eventuallyEq
    filter_upwards [eventually_ne_nhds hσ.ne'] with s hs
    exact d1v_affine S K r hT hs
  have hd2 : HasDerivAt (fun s => d2v S K T r s)
      ((-((Real.log (S / K) + r * T) / Real.sqrt T) / σ ^ 2 + Real.sqrt T / 2)
        - Real.sqrt T) σ := by
    unfold d2v
    exact hd1.sub (by simpa using (hasDerivAt_id σ).mul_const (Real.sqrt T))
  have hΦ1 : HasDerivAt (fun s => normCdf (-d1v S K T r s))
      (normPdf (-d1v S K T r σ)
        * (-(-((Real.log (S / K) + r * T) / Real.sqrt T) / σ ^ 2 + Real.sqrt T / 2))) σ :=
    (normCdf_hasDerivAt (-d1v S K T r σ)).comp σ hd1.neg
  have hΦ2 : HasDerivAt (fun s => normCdf (-d2v S K T r s))
      (normPdf (-d2v S K T r σ)
        * (-((-((Real.log (S / K) + r * T) / Real.sqrt T) / σ ^ 2 + Real.sqrt T / 2)
          - Real.sqrt T))) σ :=
    (normCdf_hasDerivAt (-d2v S K T r σ)).comp σ hd2.neg
  have hprice : HasDerivAt (fun s => bsPutVal S K T r s)
      (K * Real.exp (-r * T) * (normPdf (-d2v S K T r σ)
        * (-((-((Real.log (S / K) + r * T) / Real.sqrt T) / σ ^ 2 + Real.sqrt T / 2)
          - Real.sqrt T)))
        - S * (normPdf (-d1v S K T r σ)
          * (-(-((Real.log (S / K) + r * T) / Real.sqrt T) / σ ^ 2
            + Real.sqrt T / 2)))) σ := by
    unfold bsPutVal
    exact (hΦ2.const_mul (K * Real.exp (-r * T))).sub (hΦ1.const_mul S)
  have hval : K * Real.exp (-r * T) * (normPdf (-d2v S K T r σ)
        * (-((-((Real.log (S / K) + r * T) / Real.sqrt T) / σ ^ 2 + Real.sqrt T / 2)
          - Real.sqrt T)))
        - S * (normPdf (-d1v S K T r σ)
          * (-(-((Real.log (S / K) + r * T) / Real.sqrt T) / σ ^ 2
            + Real.sqrt T / 2)))
      = S * normPdf (d1v S K T r σ) * Real.sqrt T := by
    rw [normPdf_neg, normPdf_neg]
    linear_combination
      (Real.sqrt T - (-((Real.log (S / K) + r * T) / Real.sqrt T) / σ ^ 2
        + Real.sqrt T / 2)) * bs_identity S K T r hS hK hT σ hσ
  exact hval ▸ hprice

theorem bsCallVal_strictMonoOn (S K T r : ℝ) (hS : 0 < S) (hK : 0 < K) (hT : 0 < T) :
    StrictMonoOn (fun σ => bsCallVal S K T r σ) (Set.Ioi 0) := by
  apply strictMonoOn_of_deriv_pos (convex_Ioi 0)
  · intro x hx
    exact (hasDerivAt_bsCallVal S K T r hS hK hT x
      hx).differentiableAt.continuousAt.continuousWithinAt
  · intro x hx
    rw [interior_Ioi] at hx
    rw [(hasDerivAt_bsCallVal S K T r hS hK hT x hx).deriv]
    exact mul_pos (mul_pos hS (normPdf_pos _)) (Real.sqrt_pos.2 hT)

theorem bsPutVal_strictMonoOn (S K T r : ℝ) (hS : 0 < S) (hK : 0 < K) (hT : 0 < T) :
    StrictMonoOn (fun σ => bsPutVal S K T r σ) (Set.Ioi 0) := by
  apply strictMonoOn_of_deriv_pos (convex_Ioi 0)
  · intro x hx
    exact (hasDerivAt_bsPutVal S K T r hS hK hT x
      hx).differentiableAt.continuousAt.continuousWithinAt
  · intro x hx
    rw [interior_Ioi] at hx
    rw [(hasDerivAt_bsPutVal S K T r hS hK hT x hx).deriv]
    exact mul_pos (mul_pos hS (normPdf_pos _)) (Real.sqrt_pos.2 hT)

theorem solveLoop_roundtrip (f : ℝ → ℝ)
    (hmono : StrictMonoOn f (Set.Icc (1e-5 : ℝ) 10))
    (σ : ℝ) (hσl : 0.01 < σ) (hσr : σ < 3)
    (fn : ℝ → Option ℝ) (hfn : ∀ x, 1e-5 ≤ x → x ≤ 10 → fn x = some (f x)) :
    ∀ (fuel : ℕ) (lo hi : ℝ), fuel ≤ 120 → 1e-5 ≤ lo → lo ≤ σ → σ ≤ hi → hi ≤ 10 →
      hi - lo ≤ 10 * (2 : ℝ)⁻¹ ^ (120 - fuel) →
      ∃ v, solveLoop fn (f σ) fuel lo hi = some v ∧
        (|f v - f σ| < 1e-6 ∨ |v - σ| ≤ 1e-3) := by
  intro fuel
  induction fuel with
  | zero =>
    intro lo hi hf120 h1 h2 h3 h4 hw
    have hw2 : hi - lo ≤ 1e-3 := le_trans hw (by norm_num)
    refine ⟨(lo + hi) / 2, ?_, Or.inr (abs_le.2 ⟨by linarith, by linarith⟩)⟩
    simp only [solveLoop]
    rw [if_pos ⟨by linarith, by linarith⟩]
  | succ n ih =>
    intro lo hi hf120 h1 h2 h3 h4 hw
    have hmid1 : (1e-5 : ℝ) ≤ (lo + hi) / 2 := by linarith
    have hmid2 : (lo + hi) / 2 ≤ 10 := by linarith
    rw [solveLoop_succ, hfn _ hmid1 hmid2]
    dsimp only
    by_cases habs : |f ((lo + hi) / 2) - f σ| < 1e-6
    · rw [if_pos habs]
      exact ⟨_, rfl, Or.inl habs⟩
    · rw [if_neg habs]
      have hσmem : σ ∈ Set.Icc (1e-5 : ℝ) 10 := ⟨by linarith, by linarith⟩
      have hmidmem : (lo + hi) / 2 ∈ Set.Icc (1e-5 : ℝ) 10 := ⟨hmid1, hmid2⟩
      have hpow : (2 : ℝ)⁻¹ ^ (120 - (n + 1)) * (2 : ℝ)⁻¹ = (2 : ℝ)⁻¹ ^ (120 - n) := by
        rw [← pow_succ]
        congr 1
        omega
      have hwhalf : (hi - lo) / 2 ≤ 10 * (2 : ℝ)⁻¹ ^ (120 - n) := by
        rw [← hpow]
        nlinarith [hw]
      by_cases hlt : f ((lo + hi) / 2) < f σ
      · rw [if_pos hlt]
        have hmltσ : (lo + hi) / 2 ≤ σ := by
          by_contra hcon
          push_neg at hcon
          exact absurd (hmono.monotoneOn hσmem hmidmem hcon.le) (not_le.2 hlt)
        exact ih ((lo + hi) / 2) hi (by omega) hmid1 hmltσ h3 h4 (by linarith)
      · rw [if_neg hlt]
        have hσlemid : σ ≤ (lo + hi) / 2 := by
          by_contra hcon
          push_neg at hcon
          exact hlt (hmono hmidmem hσmem hcon)
        exact ih lo ((lo + hi) / 2) (by omega) h1 h2 hσlemid hmid2 (by linarith)

/-- C4 amended: for every σ in (0.01, 3.0) and S, K, T > 0, pricing
with the solver's own forward model and solving again returns a
volatility whenever the price clears the code's no-arbitrage guard
(which uses the SWAPPED intrinsic, `max(0, K−S)` for calls and
`max(0, S−K)` for puts, plus 1e-5); the returned volatility either
reprices the option within the `1e-6` early-exit tolerance or lies
within `1e-3` of σ (in fact within `10·2⁻¹²⁰`).  When the price fails
the guard — as in the counterexample — the solver returns none. -/
theorem claim_C4_amended_roundtrip :
    ∀ (S K T r σ : ℝ) (c : Bool), 0 < S → 0 < K → 0 < T →
    0.01 < σ → σ < 3 →
    max 0 (if c then K - S else S - K) + 1e-5
      < (if c then bsCallVal S K T r σ else bsPutVal S K T r σ) →
    ∃ v, solve_iv (some (if c then bsCallVal S K T r σ else bsPutVal S K T r σ))
        S (some K) T r c = .ok (some v) ∧
      (|(if c then bsCallVal S K T r v else bsPutVal S K T r v)
          - (if c then bsCallVal S K T r σ else bsPutVal S K T r σ)| < 1e-6 ∨
        |v - σ| ≤ 1e-3) := by
  intro S K T r σ c hS hK hT hσl hσr hguard
  have hmax0 : (0:ℝ) ≤ max 0 (if c then K - S else S - K) := le_max_left 0 _
  have hm_pos : (0:ℝ) < (if c then bsCallVal S K T r σ else bsPutVal S K T r σ) := by
    have : (0:ℝ) < 1e-5 := by norm_num
    linarith
  have heval : solve_iv
      (some (if c then bsCallVal S K T r σ else bsPutVal S K T r σ))
      S (some K) T r c
      = .ok (solveLoop (fun σ0 => if c then bs_call S K T r σ0 else bs_put S K T r σ0)
        (if c then bsCallVal S K T r σ else bsPutVal S K T r σ) 120 1e-5 10) := by
    simp only [solve_iv]
    rw [if_neg (by push_neg; exact ⟨hT, hm_pos⟩)]
    rw [if_neg (not_le.2 hguard)]
  have hmono : StrictMonoOn
      (fun s => if c then bsCallVal S K T r s else bsPutVal S K T r s)
      (Set.Icc (1e-5 : ℝ) 10) := by
    have hsub : Set.Icc (1e-5 : ℝ) 10 ⊆ Set.Ioi 0 := fun x hx =>
      lt_of_lt_of_le (by norm_num) hx.1
    cases c
    · rw [show (fun s => if false = true then bsCallVal S K T r s
          else bsPutVal S K T r s) = fun s => bsPutVal S K T r s from
        funext fun s => if_neg (by simp)]
      exact (bsPutVal_strictMonoOn S K T r hS hK hT).mono hsub
    · rw [show (fun s => if true = true then bsCallVal S K T r s
          else bsPutVal S K T r s) = fun s => bsCallVal S K T r s from
        funext fun s => if_pos rfl]
      exact (bsCallVal_strictMonoOn S K T r hS hK hT).mono hsub
  have hfn : ∀ x, (1e-5 : ℝ) ≤ x → x ≤ 10 →
      (if c then bs_call S K T r x else bs_put S K T r x)
        = some (if c then bsCallVal S K T r x else bsPutVal S K T r x) := by
    intro x hx1 hx2
    have hx0 : (0:ℝ) < x := lt_of_lt_of_le (by norm_num) hx1
    have hcond : ¬(S / K ≤ 0 ∨ x * Real.sqrt T = 0) := by
      push_neg
      exact ⟨div_pos hS hK, (mul_pos hx0 (Real.sqrt_pos.2 hT)).ne'⟩
    cases c
    · rw [if_neg (by simp), if_neg (by simp)]
      unfold bs_put
      rw [if_neg hcond]
    · rw [if_pos rfl, if_pos rfl]
      unfold bs_call
      rw [if_neg hcond]
  obtain ⟨v, hv, hcase⟩ := solveLoop_roundtrip
    (fun s => if c then bsCallVal S K T r s else bsPutVal S K T r s) hmono σ hσl hσr
    (fun σ0 => if c then bs_call S K T r σ0 else bs_put S K T r σ0)
    hfn 120 1e-5 10 le_rfl le_rfl (by linarith) (by linarith) (by norm_num)
    (by norm_num)
  exact ⟨v, by rw [heval, hv], hcase⟩

theorem bsCallVal_CC (σ : ℝ) (hσ : 0 < σ) :
    bsCallVal 1 1 1 0 σ = normCdf (σ / 2) - normCdf (-(σ / 2)) := by
  have h1 : d1v 1 1 1 0 σ = σ / 2 := by
    unfold d1v
    rw [show (1:ℝ)/1 = 1 by norm_num, Real.log_one, Real.sqrt_one]
    field_simp
    ring
  have h2 : d2v 1 1 1 0 σ = -(σ / 2) := by
    unfold d2v
    rw [h1, Real.sqrt_one]
    ring
  unfold bsCallVal
  rw [h1, h2, show (-(0:ℝ) * 1) = 0 by ring, Real.exp_zero]
  ring

/-- C4 witness: the round trip at `S = K = T = 1, r = 0, σ = 1`
(call); the forward price exceeds the guard threshold, so the solver
returns a volatility satisfying the amended bound. -/
theorem claim_C4_witness :
    ∃ v, solve_iv (some (if true then bsCallVal 1 1 1 0 1 else bsPutVal 1 1 1 0 1))
        1 (some 1) 1 0 true = .ok (some v) ∧
      (|(if true then bsCallVal 1 1 1 0 v else bsPutVal 1 1 1 0 v)
          - (if true then bsCallVal 1 1 1 0 1 else bsPutVal 1 1 1 0 1)| < 1e-6 ∨
        |v - 1| ≤ 1e-3) := by
  apply claim_C4_amended_roundtrip 1 1 1 0 1 true (by norm_num) (by norm_num)
    (by norm_num) (by norm_num) (by norm_num)
  rw [if_pos rfl, if_pos rfl, show (1:ℝ) - 1 = 0 from by norm_num, max_self,
    bsCallVal_CC 1 (by norm_num)]
  have h := cc_price_gap (a := (0:ℝ)) (b := (1:ℝ)) le_rfl (by norm_num) (by norm_num)
  have hz : normCdf ((0:ℝ) / 2) - normCdf (-((0:ℝ) / 2)) = 0 := by norm_num
  rw [hz] at h
  have h2 : (0:ℝ) + 1e-5 < 0.2 * ((1:ℝ) - 0) := by norm_num
  linarith
